import Mathlib

/-!
Verification of the gcc-time-trace-plugin event-correlation engine and trace
serializer.  The definitions below are a shallow embedding of the C++ sources:

* `src/src/event.hpp` — the `EventTracker` with its per-category LIFO stacks
  (`Stack`), keyed stack collections (`StackMap`), the matching primitives
  `try_match_stack` / `try_match_map`, the four `push_event` overloads and the
  shutdown `finish` / `finish_stack` / `finish_map` drain.
* the trace writer (`TraceWriter`) — marker naming for unmatched events, the
  quote escaping in `get_decl_name`, the `%ld.%03ld` fixed-point microsecond
  formatting of `SliceWriter`.
* `src/src/plugin.cpp` — the epoch computation of `finish_callback`.

GCC `tree` handles are modelled as opaque numeric identities, timestamps as
naturals (nanosecond counts of the monotone clock).
-/

namespace TimeTrace

/-- Event kind enumerations, mirroring `event.hpp` lines 15-64. -/
inductive UnitEventKind
  | Start
  | End
deriving DecidableEq, Repr

inductive IncludeEventKind
  | Enter
  | Leave
deriving DecidableEq, Repr

inductive ParseEventKind
  | Start
  | PreGenericize
  | Finish
deriving DecidableEq, Repr

inductive PassEventKind
  | Start
  | End
deriving DecidableEq, Repr

/-- `struct UnitEvent` — no payload beyond the kind. -/
structure UnitEvent where
  kind : UnitEventKind
deriving DecidableEq, Repr

/-- `struct IncludeEvent` — carries the included file name. -/
structure IncludeEvent where
  kind : IncludeEventKind
  filename : String
deriving DecidableEq, Repr

/-- `struct ParseEvent` — `tree decl` modelled as an opaque numeric identity,
`unsigned int uid` as the function key. -/
structure ParseEvent where
  kind : ParseEventKind
  decl : Nat
  uid : Nat
deriving DecidableEq, Repr

/-- `struct PassEvent` — pass name, optional decl (`NULL_TREE` is `none`). -/
structure PassEvent where
  kind : PassEventKind
  name : String
  decl : Option Nat
  uid : Nat
deriving DecidableEq, Repr

/-- `EventRecord<Event>` — a timestamp captured at observation time paired with
the event payload.  Timestamps are nanosecond counts of the steady clock. -/
structure EventRecord (E : Type) where
  timestamp : Nat
  event : E
deriving DecidableEq, Repr

/-- Outputs handed to the tracker's callback: `on_match(start, end)` for a
completed interval, `on_mismatch(end)` for an unmatched record. -/
inductive TraceOut (E : Type) where
  | on_match (s e : EventRecord E)
  | on_mismatch (e : EventRecord E)
deriving DecidableEq, Repr

/-- `Stack<E> = std::forward_list<EventRecord<E>>`; `push_front` is `cons`. -/
abbrev Stack (E : Type) := List (EventRecord E)

/-- `StackMap<K, E> = std::unordered_map<K, Stack<E>>`, modelled as an
association list with at most one binding per key. -/
abbrev StackMap (K E : Type) := List (K × Stack E)

/-- `stack_dict.find(key)` on the association list. -/
def map_find {K E : Type} [DecidableEq K] : StackMap K E → K → Option (Stack E)
  | [], _ => none
  | (k', s) :: rest, k => if k' = k then some s else map_find rest k

/-- Replace the binding of `k` (or append a fresh one). -/
def map_set {K E : Type} [DecidableEq K] : StackMap K E → K → Stack E → StackMap K E
  | [], k, s => [(k, s)]
  | (k', s') :: rest, k, s => if k' = k then (k, s) :: rest else (k', s') :: map_set rest k s

/-- `stack_dict.erase(it)` — drop the binding of `k`. -/
def map_erase {K E : Type} [DecidableEq K] : StackMap K E → K → StackMap K E
  | [], _ => []
  | (k', s') :: rest, k => if k' = k then rest else (k', s') :: map_erase rest k

/-- `stack_dict[key].push_front(record)` — `operator[]` default-constructs an
empty stack when the key is absent, then the record is pushed on front. -/
def map_push {K E : Type} [DecidableEq K] (m : StackMap K E) (k : K) (r : EventRecord E) :
    StackMap K E :=
  map_set m k (r :: ((map_find m k).getD []))

/-- `EventTracker::try_match_stack` (event.hpp 204-213): pop the front entry if
the stack is non-empty, handing it to the callback; otherwise hand `none`. -/
def try_match_stack {E : Type} (stack : Stack E) : Stack E × Option (EventRecord E) :=
  match stack with
  | [] => ([], none)
  | x :: xs => (xs, some x)

/-- `EventTracker::try_match_map` (event.hpp 215-227): look the key up, run
`try_match_stack` on its stack, and erase the binding if the stack drained. -/
def try_match_map {K E : Type} [DecidableEq K] (m : StackMap K E) (k : K) :
    StackMap K E × Option (EventRecord E) :=
  match map_find m k with
  | none => (m, none)
  | some s =>
    let res := try_match_stack s
    ((if res.1.isEmpty then map_erase m k else map_set m k res.1), res.2)

/-- `DefaultMatchCallback` (event.hpp 86-100): a popped start becomes
`on_match(start, end)`, an empty pop becomes `on_mismatch(end)`. -/
def default_match_callback {E : Type} (popped : Option (EventRecord E)) (e : EventRecord E) :
    List (TraceOut E) :=
  match popped with
  | some s => [TraceOut.on_match s e]
  | none => [TraceOut.on_mismatch e]

/-- The `EventTracker`'s buffering state (event.hpp 108-112). -/
structure TrackerState where
  unit_events : Stack UnitEvent
  include_events : Stack IncludeEvent
  parse_events : StackMap Nat ParseEvent
  genericize_events : StackMap Nat ParseEvent
  pass_events : StackMap String PassEvent
deriving DecidableEq, Repr

/-- The freshly constructed tracker: every collection empty. -/
def TrackerState.init : TrackerState :=
  { unit_events := [], include_events := [], parse_events := [], genericize_events := [],
    pass_events := [] }

/-- `push_event(EventRecord<UnitEvent>)` (event.hpp 127-138). -/
def push_event_unit (st : TrackerState) (r : EventRecord UnitEvent) :
    TrackerState × List (TraceOut UnitEvent) :=
  match r.event.kind with
  | UnitEventKind.Start => ({ st with unit_events := r :: st.unit_events }, [])
  | UnitEventKind.End =>
    let res := try_match_stack st.unit_events
    ({ st with unit_events := res.1 }, default_match_callback res.2 r)

/-- `push_event(EventRecord<IncludeEvent>)` (event.hpp 140-151). -/
def push_event_include (st : TrackerState) (r : EventRecord IncludeEvent) :
    TrackerState × List (TraceOut IncludeEvent) :=
  match r.event.kind with
  | IncludeEventKind.Enter => ({ st with include_events := r :: st.include_events }, [])
  | IncludeEventKind.Leave =>
    let res := try_match_stack st.include_events
    ({ st with include_events := res.1 }, default_match_callback res.2 r)

/-- `push_event(EventRecord<ParseEvent>)` (event.hpp 153-179).  `Start` pushes
onto the parse-stack of the uid.  `PreGenericize` pushes onto the
genericize-stack and then matches against the parse-stack with a custom
callback that emits `on_match` when a start was popped and — deliberately —
nothing at all otherwise.  `Finish` matches the parse-stack first and falls
back to the genericize-stack with the default callback. -/
def push_event_parse (st : TrackerState) (r : EventRecord ParseEvent) :
    TrackerState × List (TraceOut ParseEvent) :=
  match r.event.kind with
  | ParseEventKind.Start =>
    ({ st with parse_events := map_push st.parse_events r.event.uid r }, [])
  | ParseEventKind.PreGenericize =>
    let ge := map_push st.genericize_events r.event.uid r
    let res := try_match_map st.parse_events r.event.uid
    ({ st with parse_events := res.1, genericize_events := ge },
      match res.2 with
      | some s => [TraceOut.on_match s r]
      | none => [])
  | ParseEventKind.Finish =>
    let res := try_match_map st.parse_events r.event.uid
    match res.2 with
    | some s => ({ st with parse_events := res.1 }, [TraceOut.on_match s r])
    | none =>
      let res2 := try_match_map st.genericize_events r.event.uid
      ({ st with parse_events := res.1, genericize_events := res2.1 },
        default_match_callback res2.2 r)

/-- `push_event(EventRecord<PassEvent>)` (event.hpp 181-192), keyed by the pass
name. -/
def push_event_pass (st : TrackerState) (r : EventRecord PassEvent) :
    TrackerState × List (TraceOut PassEvent) :=
  match r.event.kind with
  | PassEventKind.Start =>
    ({ st with pass_events := map_push st.pass_events r.event.name r }, [])
  | PassEventKind.End =>
    let res := try_match_map st.pass_events r.event.name
    ({ st with pass_events := res.1 }, default_match_callback res.2 r)

/-- `EventTracker::finish_stack` (event.hpp 229-236): report every remaining
entry, front to back, as a mismatch, then clear the stack. -/
def finish_stack {E : Type} (s : Stack E) : List (TraceOut E) :=
  s.map TraceOut.on_mismatch

/-- `EventTracker::finish_map` (event.hpp 238-245): drain every binding's
stack, then clear the map. -/
def finish_map {K E : Type} (m : StackMap K E) : List (TraceOut E) :=
  (m.map fun kv => finish_stack kv.2).flatten

/-- `EventTracker::finish` (event.hpp 194-201): drain all five collections.
The result pairs the emptied tracker with the mismatch output of each
collection in source order. -/
def finish (st : TrackerState) :
    TrackerState ×
      (List (TraceOut UnitEvent) × List (TraceOut IncludeEvent) × List (TraceOut ParseEvent) ×
        List (TraceOut ParseEvent) × List (TraceOut PassEvent)) :=
  (TrackerState.init,
    (finish_stack st.unit_events, finish_stack st.include_events, finish_map st.parse_events,
      finish_map st.genericize_events, finish_map st.pass_events))

/-- Number of pending records held in a keyed collection. -/
def map_pending {K E : Type} (m : StackMap K E) : Nat :=
  (m.map fun kv => kv.2.length).sum

/-- Total number of pending records buffered in the tracker. -/
def pending_count (st : TrackerState) : Nat :=
  st.unit_events.length + st.include_events.length + map_pending st.parse_events +
    map_pending st.genericize_events + map_pending st.pass_events

/-- Whether a tracker output is a mismatch report. -/
def is_mismatch {E : Type} : TraceOut E → Bool
  | TraceOut.on_match _ _ => false
  | TraceOut.on_mismatch _ => true

/-!  Trace writer definitions, from `TraceWriter`. -/

/-- Name of a matched parse-category interval
(`write_slice(EventRecord<ParseEvent>, EventRecord<ParseEvent>)`): the interval
is called `parse` when its start record is a `Start`, `genericize` when the
start record is the `PreGenericize` pushed onto the genericize-stack. -/
def parse_interval_name (s : EventRecord ParseEvent) : String :=
  if s.event.kind = ParseEventKind.Start then "parse" else "genericize"

/-- Marker entry names written for an unmatched `UnitEvent` record
(`write_slice(EventRecord<UnitEvent>)`). -/
def write_slice_unit_single (e : EventRecord UnitEvent) : List String :=
  [if e.event.kind = UnitEventKind.Start then "unit (start)" else "unit (end)"]

/-- Marker entry names written for an unmatched `IncludeEvent` record
(`write_slice(EventRecord<IncludeEvent>)`). -/
def write_slice_include_single (e : EventRecord IncludeEvent) : List String :=
  [if e.event.kind = IncludeEventKind.Enter then "include (enter)" else "include (leave)"]

/-- Marker entry names written for an unmatched `ParseEvent` record
(`write_slice(EventRecord<ParseEvent>)`): a dangling `Start` returns without
writing anything, `PreGenericize` and `Finish` write one labelled entry. -/
def write_slice_parse_single (e : EventRecord ParseEvent) : List String :=
  match e.event.kind with
  | ParseEventKind.Start => []
  | ParseEventKind.PreGenericize => ["genericize (start)"]
  | ParseEventKind.Finish => ["parse (finish)"]

/-- Marker entry names written for an unmatched `PassEvent` record
(`write_slice(EventRecord<PassEvent>)`). -/
def write_slice_pass_single (e : EventRecord PassEvent) : List String :=
  [e.event.name ++ (if e.event.kind = PassEventKind.Start then " (start)" else " (cancelled)")]

/-- The quote-escaping loop of `TraceWriter::get_decl_name`: the `strcspn`
loop copies each quote-free segment and replaces every `"` by `\"`. -/
def escape_quotes : List Char → List Char
  | [] => []
  | c :: cs => if c = '"' then '\\' :: '"' :: escape_quotes cs else c :: escape_quotes cs

/-- The escaped display name stored by `get_decl_name` for a resolved printable
name. -/
def get_decl_name (s : String) : String :=
  String.mk (escape_quotes s.data)

/-- The value written for the `file` argument of an include slice
(`write_slice(EventRecord<IncludeEvent>, ...)` line 103): the file name is
printed with `%s`, unescaped. -/
def write_include_file_arg (filename : String) : String :=
  filename

/-- The serializer writes every string value wrapped in double quotes. -/
def quoted (v : String) : String :=
  "\"" ++ v ++ "\""

/-- Unescaping of a single backslash escape by a JSON string parser. -/
def json_unescape_char (c : Char) : Option Char :=
  if c = '"' then some '"'
  else if c = '\\' then some '\\'
  else if c = '/' then some '/'
  else if c = 'b' then some (Char.ofNat 8)
  else if c = 'f' then some (Char.ofNat 12)
  else if c = 'n' then some (Char.ofNat 10)
  else if c = 'r' then some (Char.ofNat 13)
  else if c = 't' then some (Char.ofNat 9)
  else none

/-- Body of a JSON string literal: read characters up to the closing quote,
decoding backslash escapes; the closing quote must consume the whole input. -/
def json_string_body : List Char → Option (List Char)
  | [] => none
  | c :: cs =>
    if c = '"' then (if cs.isEmpty then some [] else none)
    else if c = '\\' then
      match cs with
      | [] => none
      | d :: ds =>
        match json_unescape_char d, json_string_body ds with
        | some u, some l => some (u :: l)
        | _, _ => none
    else (json_string_body cs).map (fun l => c :: l)

/-- Parse a complete JSON string literal back to the string it denotes. -/
def json_parse_string (s : String) : Option String :=
  match s.data with
  | '"' :: rest => (json_string_body rest).map String.mk
  | _ => none

/-!  Fixed-point microsecond formatting of `TraceWriter::SliceWriter`
(`%ld.%03ld` applied to `value / 1000` and `value % 1000`). -/

/-- Decimal digit to character, as `%ld` renders digits. -/
def digit_char (d : Nat) : Char :=
  if d = 0 then '0' else if d = 1 then '1' else if d = 2 then '2' else if d = 3 then '3'
  else if d = 4 then '4' else if d = 5 then '5' else if d = 6 then '6' else if d = 7 then '7'
  else if d = 8 then '8' else '9'

/-- Numeric value of a decimal digit character. -/
def char_val (c : Char) : Nat :=
  c.toNat - 48

/-- Decimal rendering of a natural number, as `%ld` prints it. -/
def nat_repr (n : Nat) : String :=
  if n = 0 then "0" else String.mk (((Nat.digits 10 n).reverse).map digit_char)

/-- Zero-padded minimum-width-three rendering, as `%03ld` prints it. -/
def pad3 (n : Nat) : String :=
  String.mk (List.replicate (3 - (nat_repr n).length) '0') ++ nat_repr n

/-- The textual timestamp/duration of a slice: the nanosecond count split as
`value / 1000` whole microseconds and a three-digit `value % 1000` fraction
(`SliceWriter`, part of the `fprintf` calls on lines 44 and 46). -/
def slice_ts_repr (ns : Nat) : String :=
  nat_repr (ns / 1000) ++ "." ++ pad3 (ns % 1000)

/-- Read a big-endian list of decimal digit characters back to a number. -/
def read_digits (l : List Char) : Nat :=
  l.foldl (fun acc c => 10 * acc + char_val c) 0

/-!  Epoch computation of `finish_callback` (plugin.cpp 170-216). -/

/-- `EventTimePoint::max()` — the steady clock's representation is a signed
64-bit nanosecond count. -/
def time_point_max : Nat := 2 ^ 63 - 1

/-- The per-category contribution to the epoch: the front (earliest, after the
buffers were reversed into chronological order) timestamp, or
`EventTimePoint::max()` for an empty buffer. -/
def front_timestamp {E : Type} : List (EventRecord E) → Nat
  | [] => time_point_max
  | r :: _ => r.timestamp

/-- The epoch of `finish_callback`: `std::min` over the four categories'
front timestamps. -/
def finish_epoch (u : List (EventRecord UnitEvent)) (i : List (EventRecord IncludeEvent))
    (p : List (EventRecord ParseEvent)) (q : List (EventRecord PassEvent)) : Nat :=
  min (min (front_timestamp u) (front_timestamp i)) (min (front_timestamp p) (front_timestamp q))

/-- Relative timestamp computed by `SliceWriter`: the event's absolute
timestamp minus the epoch, as a signed duration. -/
def slice_rel_ts (ts epoch : Nat) : Int :=
  (ts : Int) - (epoch : Int)

/-- Minimum of a list of timestamps, `none` when there are none. -/
def min_ts : List Nat → Option Nat
  | [] => none
  | t :: ts =>
    match min_ts ts with
    | none => some t
    | some m => some (min t m)

/-- A category's earliest buffered event timestamp, `none` when it has no
entries. -/
def category_earliest {E : Type} (l : List (EventRecord E)) : Option Nat :=
  min_ts (l.map EventRecord.timestamp)

/-- Minimum of two optional timestamps, ignoring absent ones. -/
def min_opt : Option Nat → Option Nat → Option Nat
  | none, b => b
  | some a, none => some a
  | some a, some b => some (min a b)

/-- The epoch as the specification words it: the minimum over all non-empty
categories of that category's earliest buffered event timestamp; a category
with no entries contributes nothing and is ignored. -/
def epoch_spec (u : List (EventRecord UnitEvent)) (i : List (EventRecord IncludeEvent))
    (p : List (EventRecord ParseEvent)) (q : List (EventRecord PassEvent)) : Option Nat :=
  min_opt (min_opt (category_earliest u) (category_earliest i))
    (min_opt (category_earliest p) (category_earliest q))

/-- A buffer is chronological when consecutive timestamps are nondecreasing —
the state the reversed forward-lists are in, since records are timestamped at
observation time in callback order. -/
def chronological {E : Type} (l : List (EventRecord E)) : Prop :=
  List.Chain' (fun a b => a.timestamp ≤ b.timestamp) l

instance {E : Type} (l : List (EventRecord E)) : Decidable (chronological l) :=
  inferInstanceAs (Decidable (List.Chain' (fun (a b : EventRecord E) => a.timestamp ≤ b.timestamp) l))

/-!  Sequence runners: feed a list of records of one category through the
tracker, concatenating the callback outputs in order.  These model the event
replay loops of `finish_callback` (plugin.cpp 200-211). -/

/-- Replay of unit-category events over the shared single-stack matching
primitive `try_match_stack`, exactly as `push_event(EventRecord<UnitEvent>)`
drives it: a `Start` pushes on front, an `End` pops via `try_match_stack`
through `DefaultMatchCallback`. -/
def run_stack (stack : Stack UnitEvent) : List (EventRecord UnitEvent) →
    Stack UnitEvent × List (TraceOut UnitEvent)
  | [] => (stack, [])
  | r :: rs =>
    match r.event.kind with
    | UnitEventKind.Start => run_stack (r :: stack) rs
    | UnitEventKind.End =>
      let res := try_match_stack stack
      let rest := run_stack res.1 rs
      (rest.1, default_match_callback res.2 r ++ rest.2)

/-- Replay a list of parse-category records through the tracker. -/
def run_parse (st : TrackerState) : List (EventRecord ParseEvent) →
    TrackerState × List (TraceOut ParseEvent)
  | [] => (st, [])
  | r :: rs =>
    let step := push_event_parse st r
    let rest := run_parse step.1 rs
    (rest.1, step.2 ++ rest.2)

/-- Replay a list of pass-category records through the tracker. -/
def run_pass (st : TrackerState) : List (EventRecord PassEvent) →
    TrackerState × List (TraceOut PassEvent)
  | [] => (st, [])
  | r :: rs =>
    let step := push_event_pass st r
    let rest := run_pass step.1 rs
    (rest.1, step.2 ++ rest.2)

/-- Well-formedness of a begin/end kind sequence at nesting depth `d`: every
end has a pending begin and every begin is eventually closed.  `balanced 0 ks`
is the spec's "well-formed sequence of (begin, end) pairs submitted in nested
or sequential order". -/
def balanced : Nat → List UnitEventKind → Bool
  | d, [] => d = 0
  | d, UnitEventKind.Start :: ks => balanced (d + 1) ks
  | d, UnitEventKind.End :: ks => decide (0 < d) && balanced (d - 1) ks

/-- Number of end-kind events in a sequence. -/
def end_count (ks : List UnitEventKind) : Nat :=
  ks.countP (fun k => k = UnitEventKind.End)

/-- Number of matched intervals among a list of outputs. -/
def match_count {E : Type} (outs : List (TraceOut E)) : Nat :=
  outs.countP (fun o => !is_mismatch o)

/-- Number of mismatch reports among a list of outputs. -/
def mismatch_count {E : Type} (outs : List (TraceOut E)) : Nat :=
  outs.countP (fun o => is_mismatch o)

/-- A keyed collection is well formed when no key has two bindings — the
invariant `std::unordered_map` provides by construction. -/
def map_wf {K E : Type} (m : StackMap K E) : Prop :=
  (m.map Prod.fst).Nodup

/-!  Helper lemmas about the association-list map operations. -/

theorem map_find_map_set_self {K E : Type} [DecidableEq K] (m : StackMap K E) (k : K)
    (s : Stack E) : map_find (map_set m k s) k = some s := by
  induction m with
  | nil => simp [map_set, map_find]
  | cons kv rest ih =>
    by_cases h : kv.1 = k
    · simp [map_set, map_find, h]
    · simp [map_set, map_find, h, ih]

theorem map_find_map_set_other {K E : Type} [DecidableEq K] (m : StackMap K E) (k k' : K)
    (s : Stack E) (h : k' ≠ k) : map_find (map_set m k s) k' = map_find m k' := by
  induction m with
  | nil => simp [map_set, map_find, Ne.symm h]
  | cons kv rest ih =>
    by_cases hk : kv.1 = k
    · subst hk
      simp [map_set, map_find, Ne.symm h]
    · simp [map_set, map_find, hk, ih]

theorem map_find_map_erase_self {K E : Type} [DecidableEq K] (m : StackMap K E) (k : K)
    (hwf : map_wf m) : map_find (map_erase m k) k = none := by
  induction m with
  | nil => simp [map_erase, map_find]
  | cons kv rest ih =>
    simp only [map_wf, List.map_cons, List.nodup_cons] at hwf
    by_cases h : kv.1 = k
    · subst h
      simp only [map_erase, if_pos rfl]
      cases hfind : map_find rest kv.1 with
      | none => exact hfind
      | some s =>
        exfalso
        apply hwf.1
        clear ih hwf
        induction rest with
        | nil => simp [map_find] at hfind
        | cons kv' rest' ih' =>
          simp only [map_find] at hfind
          by_cases h' : kv'.1 = kv.1
          · simp [h']
          · simp only [if_neg h'] at hfind
            simp [ih' hfind]
    · simp only [map_erase, if_neg h, map_find, if_neg h]
      exact ih hwf.2

theorem map_find_map_erase_other {K E : Type} [DecidableEq K] (m : StackMap K E) (k k' : K)
    (h : k' ≠ k) : map_find (map_erase m k) k' = map_find m k' := by
  induction m with
  | nil => simp [map_erase, map_find]
  | cons kv rest ih =>
    by_cases hk : kv.1 = k
    · subst hk
      simp [map_erase, map_find, Ne.symm h]
    · simp only [map_erase, if_neg hk, map_find]
      by_cases hk' : kv.1 = k'
      · simp [hk']
      · simp [hk', ih]

theorem map_find_map_push_self {K E : Type} [DecidableEq K] (m : StackMap K E) (k : K)
    (r : EventRecord E) :
    map_find (map_push m k r) k = some (r :: ((map_find m k).getD [])) := by
  simp [map_push, map_find_map_set_self]

/-- C1: submitting Start(k), PreGenericize(k), Finish(k) emits exactly one
"parse" interval (Start record to PreGenericize record) and exactly one
"genericize" interval (PreGenericize record to Finish record); submitting only
Start(k), Finish(k) emits exactly one "parse" interval (Start to Finish) and no
genericize output; a Finish whose key is pending on neither the parse-stack nor
the genericize-stack is reported as a mismatch; and the parse-stack is always
tried before the genericize-stack. -/
theorem parse_fallback_spec :
    (∀ (k d0 d1 d2 t0 t1 t2 : Nat),
      (run_parse TrackerState.init
        [⟨t0, ⟨ParseEventKind.Start, d0, k⟩⟩, ⟨t1, ⟨ParseEventKind.PreGenericize, d1, k⟩⟩,
         ⟨t2, ⟨ParseEventKind.Finish, d2, k⟩⟩]).2 =
        [TraceOut.on_match ⟨t0, ⟨ParseEventKind.Start, d0, k⟩⟩
            ⟨t1, ⟨ParseEventKind.PreGenericize, d1, k⟩⟩,
         TraceOut.on_match ⟨t1, ⟨ParseEventKind.PreGenericize, d1, k⟩⟩
            ⟨t2, ⟨ParseEventKind.Finish, d2, k⟩⟩] ∧
      parse_interval_name ⟨t0, ⟨ParseEventKind.Start, d0, k⟩⟩ = "parse" ∧
      parse_interval_name ⟨t1, ⟨ParseEventKind.PreGenericize, d1, k⟩⟩ = "genericize" ∧
      (run_parse TrackerState.init
        [⟨t0, ⟨ParseEventKind.Start, d0, k⟩⟩, ⟨t2, ⟨ParseEventKind.Finish, d2, k⟩⟩]).2 =
        [TraceOut.on_match ⟨t0, ⟨ParseEventKind.Start, d0, k⟩⟩
            ⟨t2, ⟨ParseEventKind.Finish, d2, k⟩⟩] ∧
      (run_parse TrackerState.init
        [⟨t0, ⟨ParseEventKind.Start, d0, k⟩⟩,
         ⟨t2, ⟨ParseEventKind.Finish, d2, k⟩⟩]).1.genericize_events = []) ∧
    (∀ (st : TrackerState) (r : EventRecord ParseEvent),
      r.event.kind = ParseEventKind.Finish →
      map_find st.parse_events r.event.uid = none →
      map_find st.genericize_events r.event.uid = none →
      (push_event_parse st r).2 = [TraceOut.on_mismatch r]) ∧
    (∀ (st : TrackerState) (r s : EventRecord ParseEvent) (rest : Stack ParseEvent),
      r.event.kind = ParseEventKind.Finish →
      map_find st.parse_events r.event.uid = some (s :: rest) →
      (push_event_parse st r).2 = [TraceOut.on_match s r]) := by
  refine ⟨?_, ?_, ?_⟩
  · intro k d0 d1 d2 t0 t1 t2
    refine ⟨?_, rfl, rfl, ?_, ?_⟩ <;>
      simp [run_parse, push_event_parse, try_match_map, try_match_stack, map_push, map_find,
        map_set, map_erase, default_match_callback, TrackerState.init]
  · intro st r hk hp hg
    simp [push_event_parse, hk, try_match_map, hp, hg, default_match_callback]
  · intro st r s rest hk hp
    simp [push_event_parse, hk, try_match_map, hp, try_match_stack]

/-- C1 witness: the theorem applied at key 7, decls 1, timestamps 10, 20, 30,
and, for the hypothesis-bearing conjuncts, at the empty tracker (mismatch case)
and at a tracker holding one pending Start for key 7 (parse-first case). -/
theorem parse_fallback_spec_witness :
    ((run_parse TrackerState.init
        [⟨10, ⟨ParseEventKind.Start, 1, 7⟩⟩, ⟨20, ⟨ParseEventKind.PreGenericize, 1, 7⟩⟩,
         ⟨30, ⟨ParseEventKind.Finish, 1, 7⟩⟩]).2 =
      [TraceOut.on_match ⟨10, ⟨ParseEventKind.Start, 1, 7⟩⟩
          ⟨20, ⟨ParseEventKind.PreGenericize, 1, 7⟩⟩,
       TraceOut.on_match ⟨20, ⟨ParseEventKind.PreGenericize, 1, 7⟩⟩
          ⟨30, ⟨ParseEventKind.Finish, 1, 7⟩⟩]) ∧
    ((push_event_parse TrackerState.init ⟨30, ⟨ParseEventKind.Finish, 1, 7⟩⟩).2 =
      [TraceOut.on_mismatch ⟨30, ⟨ParseEventKind.Finish, 1, 7⟩⟩]) ∧
    ((push_event_parse
        { TrackerState.init with
          parse_events := [(7, [⟨10, ⟨ParseEventKind.Start, 1, 7⟩⟩])]
          genericize_events := [(7, [⟨20, ⟨ParseEventKind.PreGenericize, 1, 7⟩⟩])] }
        ⟨30, ⟨ParseEventKind.Finish, 1, 7⟩⟩).2 =
      [TraceOut.on_match ⟨10, ⟨ParseEventKind.Start, 1, 7⟩⟩
          ⟨30, ⟨ParseEventKind.Finish, 1, 7⟩⟩]) :=
  ⟨(parse_fallback_spec.1 7 1 1 1 10 20 30).1,
   parse_fallback_spec.2.1 TrackerState.init ⟨30, ⟨ParseEventKind.Finish, 1, 7⟩⟩ rfl
     (by decide) (by decide),
   parse_fallback_spec.2.2
     { TrackerState.init with
       parse_events := [(7, [⟨10, ⟨ParseEventKind.Start, 1, 7⟩⟩])]
       genericize_events := [(7, [⟨20, ⟨ParseEventKind.PreGenericize, 1, 7⟩⟩])] }
     ⟨30, ⟨ParseEventKind.Finish, 1, 7⟩⟩ ⟨10, ⟨ParseEventKind.Start, 1, 7⟩⟩ [] rfl (by decide)⟩

/-- C2 counterexample: a PreGenericize record whose key has no pending parse
entry is NOT reported as a mismatch — the callback output is empty, while the
record does remain on the genericize-stack for its key. -/
theorem pregenericize_mismatch_counterexample :
    (push_event_parse TrackerState.init ⟨1, ⟨ParseEventKind.PreGenericize, 0, 7⟩⟩).2 = [] ∧
    map_find (push_event_parse TrackerState.init
        ⟨1, ⟨ParseEventKind.PreGenericize, 0, 7⟩⟩).1.genericize_events 7 =
      some [⟨1, ⟨ParseEventKind.PreGenericize, 0, 7⟩⟩] := by
  decide

/-- C2 amended: a PreGenericize record is pushed onto the genericize-stack for
its key and simultaneously matched against the parse-stack; a pending parse
entry is popped into a matched "parse" interval; when the parse-stack has no
pending entry for the key, no output at all is produced (the mismatch is
deliberately not reported — the record simply remains on the genericize-stack
for a future Finish). -/
theorem pregenericize_push_and_match :
    ∀ (st : TrackerState) (r : EventRecord ParseEvent),
      r.event.kind = ParseEventKind.PreGenericize →
      map_find (push_event_parse st r).1.genericize_events r.event.uid =
        some (r :: ((map_find st.genericize_events r.event.uid).getD [])) ∧
      (∀ (s : EventRecord ParseEvent) (rest : Stack ParseEvent),
        map_find st.parse_events r.event.uid = some (s :: rest) →
        (push_event_parse st r).2 = [TraceOut.on_match s r] ∧
        (s.event.kind = ParseEventKind.Start → parse_interval_name s = "parse")) ∧
      (map_find st.parse_events r.event.uid = none →
        (push_event_parse st r).2 = [] ∧
        (push_event_parse st r).1.parse_events = st.parse_events) := by
  intro st r hk
  refine ⟨?_, ?_, ?_⟩
  · simp [push_event_parse, hk, map_find_map_push_self]
  · intro s rest hp
    constructor
    · simp [push_event_parse, hk, try_match_map, hp, try_match_stack]
    · intro hs
      simp [parse_interval_name, hs]
  · intro hp
    constructor
    · simp [push_event_parse, hk, try_match_map, hp]
    · simp [push_event_parse, hk, try_match_map, hp]

/-- C2 amended witness: the theorem applied to a tracker holding one pending
Start for key 7 and, via the last conjunct, to the empty tracker. -/
theorem pregenericize_push_and_match_witness :
    (map_find (push_event_parse
        { TrackerState.init with parse_events := [(7, [⟨10, ⟨ParseEventKind.Start, 1, 7⟩⟩])] }
        ⟨20, ⟨ParseEventKind.PreGenericize, 1, 7⟩⟩).1.genericize_events 7 =
      some [⟨20, ⟨ParseEventKind.PreGenericize, 1, 7⟩⟩]) ∧
    ((push_event_parse
        { TrackerState.init with parse_events := [(7, [⟨10, ⟨ParseEventKind.Start, 1, 7⟩⟩])] }
        ⟨20, ⟨ParseEventKind.PreGenericize, 1, 7⟩⟩).2 =
      [TraceOut.on_match ⟨10, ⟨ParseEventKind.Start, 1, 7⟩⟩
        ⟨20, ⟨ParseEventKind.PreGenericize, 1, 7⟩⟩]) ∧
    ((push_event_parse TrackerState.init ⟨20, ⟨ParseEventKind.PreGenericize, 1, 7⟩⟩).2 = []) := by
  refine ⟨?_, ?_, ?_⟩
  · have h := (pregenericize_push_and_match
      { TrackerState.init with parse_events := [(7, [⟨10, ⟨ParseEventKind.Start, 1, 7⟩⟩])] }
      ⟨20, ⟨ParseEventKind.PreGenericize, 1, 7⟩⟩ rfl).1
    simpa using h
  · exact ((pregenericize_push_and_match
      { TrackerState.init with parse_events := [(7, [⟨10, ⟨ParseEventKind.Start, 1, 7⟩⟩])] }
      ⟨20, ⟨ParseEventKind.PreGenericize, 1, 7⟩⟩ rfl).2.1 ⟨10, ⟨ParseEventKind.Start, 1, 7⟩⟩ []
      (by decide)).1
  · exact ((pregenericize_push_and_match TrackerState.init
      ⟨20, ⟨ParseEventKind.PreGenericize, 1, 7⟩⟩ rfl).2.2 (by decide)).1

/-- C9: an end-kind event whose key has no pending begin is reported as a
single Mismatch and leaves the entire tracker state — every stack of every key
of every category — exactly unchanged.  Stated for the keyed categories (a
Pass End with an unbound name, a Parse Finish with the key bound in neither
keyed collection) and the unkeyed categories (Unit End and Include Leave on an
empty stack). -/
theorem unmatched_end_frame :
    (∀ (st : TrackerState) (r : EventRecord PassEvent),
      r.event.kind = PassEventKind.End →
      map_find st.pass_events r.event.name = none →
      push_event_pass st r = (st, [TraceOut.on_mismatch r])) ∧
    (∀ (st : TrackerState) (r : EventRecord ParseEvent),
      r.event.kind = ParseEventKind.Finish →
      map_find st.parse_events r.event.uid = none →
      map_find st.genericize_events r.event.uid = none →
      push_event_parse st r = (st, [TraceOut.on_mismatch r])) ∧
    (∀ (st : TrackerState) (r : EventRecord UnitEvent),
      r.event.kind = UnitEventKind.End → st.unit_events = [] →
      push_event_unit st r = (st, [TraceOut.on_mismatch r])) ∧
    (∀ (st : TrackerState) (r : EventRecord IncludeEvent),
      r.event.kind = IncludeEventKind.Leave → st.include_events = [] →
      push_event_include st r = (st, [TraceOut.on_mismatch r])) := by
  refine ⟨?_, ?_, ?_, ?_⟩
  · intro st r hk hfind
    simp [push_event_pass, hk, try_match_map, hfind, default_match_callback]
  · intro st r hk hp hg
    simp [push_event_parse, hk, try_match_map, hp, hg, default_match_callback]
  · intro st r hk hs
    rcases st with ⟨u, i, p, g, pa⟩
    obtain rfl : u = [] := hs
    simp [push_event_unit, hk, try_match_stack, default_match_callback]
  · intro st r hk hs
    rcases st with ⟨u, i, p, g, pa⟩
    obtain rfl : i = [] := hs
    simp [push_event_include, hk, try_match_stack, default_match_callback]

/-- C9 witness: a Pass End named "expand" delivered to a tracker whose only
pending entries belong to other keys and other categories is reported as a
mismatch and changes nothing. -/
theorem unmatched_end_frame_witness :
    push_event_pass
      { TrackerState.init with
        pass_events := [("ccp", [⟨4, ⟨PassEventKind.Start, "ccp", none, 3⟩⟩])]
        parse_events := [(7, [⟨10, ⟨ParseEventKind.Start, 1, 7⟩⟩])] }
      ⟨5, ⟨PassEventKind.End, "expand", none, 9⟩⟩ =
    ({ TrackerState.init with
        pass_events := [("ccp", [⟨4, ⟨PassEventKind.Start, "ccp", none, 3⟩⟩])]
        parse_events := [(7, [⟨10, ⟨ParseEventKind.Start, 1, 7⟩⟩])] },
      [TraceOut.on_mismatch ⟨5, ⟨PassEventKind.End, "expand", none, 9⟩⟩]) :=
  unmatched_end_frame.1
    { TrackerState.init with
      pass_events := [("ccp", [⟨4, ⟨PassEventKind.Start, "ccp", none, 3⟩⟩])]
      parse_events := [(7, [⟨10, ⟨ParseEventKind.Start, 1, 7⟩⟩])] }
    ⟨5, ⟨PassEventKind.End, "expand", none, 9⟩⟩ rfl (by decide)

/-!  C10: the no-empty-stack invariant of the keyed collections. -/

/-- No key of a keyed collection is bound to an empty stack. -/
def map_no_empty {K E : Type} (m : StackMap K E) : Prop :=
  ∀ kv ∈ m, kv.2 ≠ ([] : Stack E)

/-- The tracker's keyed collections (parse, genericize, pass) hold no empty
stack. -/
def no_empty_stacks (st : TrackerState) : Prop :=
  map_no_empty st.parse_events ∧ map_no_empty st.genericize_events ∧
    map_no_empty st.pass_events

theorem map_no_empty_map_set {K E : Type} [DecidableEq K] {m : StackMap K E} {k : K}
    {s : Stack E} (hm : map_no_empty m) (hs : s ≠ []) : map_no_empty (map_set m k s) := by
  induction m with
  | nil =>
    intro kv hkv
    simp only [map_set, List.mem_singleton] at hkv
    subst hkv
    exact hs
  | cons kv' rest ih =>
    intro kv hkv
    by_cases h : kv'.1 = k
    · simp only [map_set, if_pos h, List.mem_cons] at hkv
      rcases hkv with h1 | h2
      · subst h1; exact hs
      · exact hm kv (List.mem_cons_of_mem _ h2)
    · simp only [map_set, if_neg h, List.mem_cons] at hkv
      rcases hkv with h1 | h2
      · rw [h1]; exact hm kv' (List.mem_cons_self _ _)
      · exact ih (fun x hx => hm x (List.mem_cons_of_mem _ hx)) kv h2

theorem mem_map_erase {K E : Type} [DecidableEq K] {m : StackMap K E} {k : K}
    {kv : K × Stack E} (h : kv ∈ map_erase m k) : kv ∈ m := by
  induction m with
  | nil => simp [map_erase] at h
  | cons kv' rest ih =>
    by_cases hk : kv'.1 = k
    · simp only [map_erase, if_pos hk] at h
      exact List.mem_cons_of_mem _ h
    · simp only [map_erase, if_neg hk, List.mem_cons] at h
      rcases h with h1 | h2
      · exact h1 ▸ List.mem_cons_self _ _
      · exact List.mem_cons_of_mem _ (ih h2)

theorem map_no_empty_map_push {K E : Type} [DecidableEq K] {m : StackMap K E} (k : K)
    (r : EventRecord E) (hm : map_no_empty m) : map_no_empty (map_push m k r) :=
  map_no_empty_map_set hm (by simp)

theorem map_no_empty_try_match_map {K E : Type} [DecidableEq K] {m : StackMap K E} (k : K)
    (hm : map_no_empty m) : map_no_empty (try_match_map m k).1 := by
  unfold try_match_map
  cases hfind : map_find m k with
  | none => exact hm
  | some s =>
    simp only
    by_cases he : (try_match_stack s).1.isEmpty
    · simp only [if_pos he]
      exact fun kv hkv => hm kv (mem_map_erase hkv)
    · simp only [if_neg he]
      exact map_no_empty_map_set hm (by simpa [List.isEmpty_iff] using he)

/-- C10: in every keyed collection (parse, genericize, pass) no key ever maps
to an empty stack: the invariant holds initially and is preserved by every
submit operation; moreover a binding drained by a match is erased from the
collection on the spot, so the key is afterwards unbound and its reuse starts
a fresh stack. -/
theorem no_empty_stack_invariant :
    no_empty_stacks TrackerState.init ∧
    (∀ (st : TrackerState), no_empty_stacks st →
      (∀ r, no_empty_stacks (push_event_unit st r).1) ∧
      (∀ r, no_empty_stacks (push_event_include st r).1) ∧
      (∀ r, no_empty_stacks (push_event_parse st r).1) ∧
      (∀ r, no_empty_stacks (push_event_pass st r).1)) ∧
    (∀ {K E : Type} [DecidableEq K] (m : StackMap K E) (k : K) (r : EventRecord E),
      map_wf m → map_find m k = some [r] →
      map_find (try_match_map m k).1 k = none) := by
  refine ⟨?_, ?_, ?_⟩
  · refine ⟨?_, ?_, ?_⟩ <;> intro kv hkv <;> simp [TrackerState.init] at hkv
  · intro st hst
    obtain ⟨hp, hg, hpa⟩ := hst
    refine ⟨?_, ?_, ?_, ?_⟩
    · intro r
      cases hk : r.event.kind <;>
        simp [push_event_unit, hk, no_empty_stacks] <;> exact ⟨hp, hg, hpa⟩
    · intro r
      cases hk : r.event.kind <;>
        simp [push_event_include, hk, no_empty_stacks] <;> exact ⟨hp, hg, hpa⟩
    · intro r
      cases hk : r.event.kind
      · simp only [push_event_parse, hk]
        exact ⟨map_no_empty_map_push _ _ hp, hg, hpa⟩
      · simp only [push_event_parse, hk]
        exact ⟨map_no_empty_try_match_map _ hp, map_no_empty_map_push _ _ hg, hpa⟩
      · simp only [push_event_parse, hk]
        split
        · exact ⟨map_no_empty_try_match_map _ hp, hg, hpa⟩
        · exact ⟨map_no_empty_try_match_map _ hp, map_no_empty_try_match_map _ hg, hpa⟩
    · intro r
      cases hk : r.event.kind
      · simp only [push_event_pass, hk]
        exact ⟨hp, hg, map_no_empty_map_push _ _ hpa⟩
      · simp only [push_event_pass, hk]
        exact ⟨hp, hg, map_no_empty_try_match_map _ hpa⟩
  · intro K E _ m k r hwf hfind
    unfold try_match_map
    rw [hfind]
    simp only [try_match_stack, List.isEmpty_nil, if_pos rfl]
    exact map_find_map_erase_self m k hwf

/-- C10 witness: the invariant transported across a Pass Start submitted to the
empty tracker, and key 7 becoming unbound after its single pending entry is
drained. -/
theorem no_empty_stack_invariant_witness :
    no_empty_stacks (push_event_pass TrackerState.init
      ⟨0, ⟨PassEventKind.Start, "ccp", none, 3⟩⟩).1 ∧
    map_find (try_match_map
      ([(7, [⟨10, ⟨ParseEventKind.Start, 1, 7⟩⟩])] : StackMap Nat ParseEvent) 7).1 7 = none :=
  ⟨((no_empty_stack_invariant.2.1 TrackerState.init no_empty_stack_invariant.1).2.2.2)
      ⟨0, ⟨PassEventKind.Start, "ccp", none, 3⟩⟩,
   no_empty_stack_invariant.2.2
     ([(7, [⟨10, ⟨ParseEventKind.Start, 1, 7⟩⟩])] : StackMap Nat ParseEvent) 7
     ⟨10, ⟨ParseEventKind.Start, 1, 7⟩⟩ (by simp [map_wf]) (by decide)⟩

/-!  C4: the shutdown flush. -/

theorem mismatch_count_finish_stack {E : Type} (s : Stack E) :
    mismatch_count (finish_stack s) = s.length := by
  unfold mismatch_count finish_stack
  rw [List.countP_map]
  have h : ((fun o => is_mismatch o) ∘ fun e => (TraceOut.on_mismatch e : TraceOut E)) =
      fun _ => true := by
    funext a
    rfl
  rw [h, List.countP_true]

theorem length_finish_stack {E : Type} (s : Stack E) :
    (finish_stack s).length = s.length := by
  simp [finish_stack]

theorem mismatch_count_finish_map {K E : Type} (m : StackMap K E) :
    mismatch_count (finish_map m) = map_pending m := by
  induction m with
  | nil => rfl
  | cons kv rest ih =>
    simp only [finish_map, List.map_cons, List.flatten_cons] at *
    unfold mismatch_count at *
    rw [List.countP_append]
    have hs := mismatch_count_finish_stack kv.2
    unfold mismatch_count at hs
    rw [hs, ih]
    simp [map_pending]

theorem length_finish_map {K E : Type} (m : StackMap K E) :
    (finish_map m).length = map_pending m := by
  induction m with
  | nil => simp [finish_map, map_pending]
  | cons kv rest ih =>
    simp only [finish_map, List.map_cons, List.flatten_cons, List.length_append] at *
    simp [map_pending, length_finish_stack, ih]

/-- C4: `finish` reports exactly one mismatch per pending entry (the begins —
and buffered PreGenericize records — never matched by an end), emits no matched
interval, leaves every stack and keyed collection empty, and flushing the
already-flushed tracker produces no output at all. -/
theorem flush_mismatch_complete :
    ∀ st : TrackerState,
      (finish st).1 = TrackerState.init ∧
      mismatch_count (finish st).2.1 = (finish st).2.1.length ∧
      mismatch_count (finish st).2.2.1 = (finish st).2.2.1.length ∧
      mismatch_count (finish st).2.2.2.1 = (finish st).2.2.2.1.length ∧
      mismatch_count (finish st).2.2.2.2.1 = (finish st).2.2.2.2.1.length ∧
      mismatch_count (finish st).2.2.2.2.2 = (finish st).2.2.2.2.2.length ∧
      (finish st).2.1.length + (finish st).2.2.1.length + (finish st).2.2.2.1.length +
        (finish st).2.2.2.2.1.length + (finish st).2.2.2.2.2.length = pending_count st ∧
      finish (finish st).1 = (TrackerState.init, ([], [], [], [], [])) := by
  intro st
  refine ⟨rfl, ?_, ?_, ?_, ?_, ?_, ?_, rfl⟩
  · show mismatch_count (finish_stack st.unit_events) = (finish_stack st.unit_events).length
    rw [mismatch_count_finish_stack, length_finish_stack]
  · show mismatch_count (finish_stack st.include_events) =
      (finish_stack st.include_events).length
    rw [mismatch_count_finish_stack, length_finish_stack]
  · show mismatch_count (finish_map st.parse_events) = (finish_map st.parse_events).length
    rw [mismatch_count_finish_map, length_finish_map]
  · show mismatch_count (finish_map st.genericize_events) =
      (finish_map st.genericize_events).length
    rw [mismatch_count_finish_map, length_finish_map]
  · show mismatch_count (finish_map st.pass_events) = (finish_map st.pass_events).length
    rw [mismatch_count_finish_map, length_finish_map]
  · show (finish_stack st.unit_events).length + (finish_stack st.include_events).length +
      (finish_map st.parse_events).length + (finish_map st.genericize_events).length +
      (finish_map st.pass_events).length = pending_count st
    simp only [length_finish_stack, length_finish_map, pending_count]

/-!  C6: marker entries for mismatched records. -/

/-- C6 counterexample: a dangling Parse `Start` handed to the single-record
`write_slice` overload writes no entry at all (`case ParseEventKind::Start:
return;`), so it is not the case that every mismatched event of every category
and kind produces exactly one marker entry. -/
theorem parse_start_marker_counterexample :
    (write_slice_parse_single ⟨0, ⟨ParseEventKind.Start, 0, 0⟩⟩).length ≠ 1 := by
  decide

/-- C6 amended: every mismatched record produces exactly one marker entry
whose name is the corresponding normal interval's base name followed by a
non-empty category-specific label suffix — for every category and kind EXCEPT
a Parse `Start`, which writes no entry at all. -/
theorem marker_suffix_labels :
    (∀ e : EventRecord UnitEvent,
      ∃ suf, write_slice_unit_single e = ["unit" ++ suf] ∧ suf ≠ "") ∧
    (∀ e : EventRecord IncludeEvent,
      ∃ suf, write_slice_include_single e = ["include" ++ suf] ∧ suf ≠ "") ∧
    (∀ e : EventRecord PassEvent,
      ∃ suf, write_slice_pass_single e = [e.event.name ++ suf] ∧ suf ≠ "") ∧
    (∀ e : EventRecord ParseEvent, e.event.kind ≠ ParseEventKind.Start →
      ∃ base suf, write_slice_parse_single e = [base ++ suf] ∧ suf ≠ "" ∧
        (base = "genericize" ∨ base = "parse")) ∧
    (∀ e : EventRecord ParseEvent, e.event.kind = ParseEventKind.Start →
      write_slice_parse_single e = []) := by
  refine ⟨?_, ?_, ?_, ?_, ?_⟩
  · rintro ⟨t, ⟨k⟩⟩
    cases k
    · exact ⟨" (start)", rfl, by decide⟩
    · exact ⟨" (end)", rfl, by decide⟩
  · rintro ⟨t, ⟨k, f⟩⟩
    cases k
    · exact ⟨" (enter)", rfl, by decide⟩
    · exact ⟨" (leave)", rfl, by decide⟩
  · rintro ⟨t, ⟨k, n, d, u⟩⟩
    cases k
    · exact ⟨" (start)", rfl, by decide⟩
    · exact ⟨" (cancelled)", rfl, by decide⟩
  · rintro ⟨t, ⟨k, d, u⟩⟩ hk
    cases k
    · exact absurd rfl hk
    · exact ⟨"genericize", " (start)", rfl, by decide, Or.inl rfl⟩
    · exact ⟨"parse", " (finish)", rfl, by decide, Or.inr rfl⟩
  · rintro ⟨t, ⟨k, d, u⟩⟩ hk
    cases k
    · rfl
    · exact absurd hk (fun h => ParseEventKind.noConfusion h)
    · exact absurd hk (fun h => ParseEventKind.noConfusion h)

/-- C6 amended witness: the theorem applied to a dangling PreGenericize marker
(one entry, base "genericize", suffix " (start)") and to a dangling Parse Start
(no entry). -/
theorem marker_suffix_labels_witness :
    (∃ base suf, write_slice_parse_single ⟨5, ⟨ParseEventKind.PreGenericize, 1, 7⟩⟩ =
      [base ++ suf] ∧ suf ≠ "" ∧ (base = "genericize" ∨ base = "parse")) ∧
    write_slice_parse_single ⟨5, ⟨ParseEventKind.Start, 1, 7⟩⟩ = [] ∧
    (∃ suf, write_slice_unit_single ⟨5, ⟨UnitEventKind.Start⟩⟩ = ["unit" ++ suf] ∧ suf ≠ "") :=
  ⟨marker_suffix_labels.2.2.2.1 ⟨5, ⟨ParseEventKind.PreGenericize, 1, 7⟩⟩ (by decide),
   marker_suffix_labels.2.2.2.2 ⟨5, ⟨ParseEventKind.Start, 1, 7⟩⟩ rfl,
   marker_suffix_labels.1 ⟨5, ⟨UnitEventKind.Start⟩⟩⟩

/-!  C5: string escaping. -/

theorem json_string_body_open (cs : List Char) :
    json_string_body ('"' :: cs) = (if cs.isEmpty then some [] else none) := by
  rw [json_string_body.eq_def]
  simp

theorem json_string_body_escaped_quote (ds : List Char) :
    json_string_body ('\\' :: '"' :: ds) = (json_string_body ds).map (fun l => '"' :: l) := by
  rw [json_string_body.eq_def]
  cases h : json_string_body ds <;> simp [json_unescape_char, h]

theorem json_string_body_other {c : Char} (h1 : c ≠ '"') (h2 : c ≠ '\\') (cs : List Char) :
    json_string_body (c :: cs) = (json_string_body cs).map (fun l => c :: l) := by
  rw [json_string_body.eq_def]
  simp [h1, h2]

theorem json_string_body_escape (l : List Char) (hl : '\\' ∉ l) :
    json_string_body (escape_quotes l ++ ['"']) = some l := by
  induction l with
  | nil => rfl
  | cons c cs ih =>
    have hcs : '\\' ∉ cs := fun h => hl (List.mem_cons_of_mem _ h)
    have hc : c ≠ '\\' := fun h => hl (h ▸ List.mem_cons_self _ _)
    by_cases hq : c = '"'
    · subst hq
      have he : escape_quotes ('"' :: cs) = '\\' :: '"' :: escape_quotes cs := by
        simp [escape_quotes]
      rw [he]
      simp only [List.cons_append]
      rw [json_string_body_escaped_quote, ih hcs]
      rfl
    · have he : escape_quotes (c :: cs) = c :: escape_quotes cs := by
        simp [escape_quotes, hq]
      rw [he]
      simp only [List.cons_append]
      rw [json_string_body_other hq hc, ih hcs]
      rfl

theorem quoted_data (v : String) : (quoted v).data = '"' :: (v.data ++ ['"']) := by
  simp [quoted, String.data_append]

/-- C5 counterexample: the include file path is embedded unescaped, so the
value written for the path `a"b` (which contains a quote) does not parse back
to the original string through a JSON string parser — the stray quote
terminates the literal early and leaves trailing garbage. -/
theorem include_path_escape_counterexample :
    json_parse_string (quoted (write_include_file_arg "a\"b")) ≠ some "a\"b" := by
  decide

/-- C5 amended: only function display names pass through the serializer's
quote escaping (`get_decl_name`); for any input without a backslash — in
particular any quote-containing name free of backslashes — the escaped value
parses back to the original string via a JSON string parser.  Include file
paths (and pass names) are embedded verbatim with no escaping at all. -/
theorem decl_name_escape_roundtrip :
    (∀ s : String, '\\' ∉ s.data →
      json_parse_string (quoted (get_decl_name s)) = some s) ∧
    (∀ f : String, write_include_file_arg f = f) := by
  constructor
  · intro s hs
    have hd : (quoted (get_decl_name s)).data = '"' :: (escape_quotes s.data ++ ['"']) := by
      rw [quoted_data]
      rfl
    rw [json_parse_string.eq_def, hd]
    simp only
    rw [json_string_body_escape s.data hs]
    rfl
  · intro f
    rfl

/-- C5 amended witness: a quote-containing, backslash-free name round-trips. -/
theorem decl_name_escape_roundtrip_witness :
    json_parse_string (quoted (get_decl_name "a\"b")) = some "a\"b" :=
  decl_name_escape_roundtrip.1 "a\"b" (by decide)

/-!  C8: fixed-point microsecond formatting. -/

theorem char_val_digit_char {d : Nat} (hd : d < 10) : char_val (digit_char d) = d := by
  have h : ∀ d : Fin 10, char_val (digit_char d.1) = d.1 := by decide
  exact h ⟨d, hd⟩

theorem read_digits_rev_digits (l : List Nat) (hl : ∀ d ∈ l, d < 10) :
    read_digits ((l.reverse).map digit_char) = Nat.ofDigits 10 l := by
  induction l with
  | nil => rfl
  | cons d ds ih =>
    rw [List.reverse_cons, List.map_append]
    unfold read_digits
    rw [List.foldl_append]
    have h1 : List.foldl (fun acc c => 10 * acc + char_val c) 0 (ds.reverse.map digit_char) =
        Nat.ofDigits 10 ds := ih (fun x hx => hl x (List.mem_cons_of_mem _ hx))
    rw [h1]
    simp only [List.map_cons, List.map_nil, List.foldl_cons, List.foldl_nil]
    rw [char_val_digit_char (hl d (List.mem_cons_self _ _)), Nat.ofDigits_cons]
    omega

theorem read_nat_repr (n : Nat) : read_digits (nat_repr n).data = n := by
  by_cases hn : n = 0
  · subst hn
    rfl
  · unfold nat_repr
    rw [if_neg hn]
    have hd : (String.mk (((Nat.digits 10 n).reverse).map digit_char)).data =
        ((Nat.digits 10 n).reverse).map digit_char := rfl
    rw [hd, read_digits_rev_digits _ (fun d hdm => Nat.digits_lt_base (by norm_num) hdm),
      Nat.ofDigits_digits]

theorem read_digits_replicate_zero (k : Nat) (l : List Char) :
    read_digits (List.replicate k '0' ++ l) = read_digits l := by
  induction k with
  | zero => rfl
  | succ k ih =>
    rw [List.replicate_succ, List.cons_append]
    unfold read_digits at *
    rw [List.foldl_cons]
    have h0 : (10 * 0 + char_val '0') = 0 := by decide
    rw [h0]
    exact ih

theorem nat_repr_length_le {n : Nat} (hn : n < 1000) : (nat_repr n).length ≤ 3 := by
  by_cases h0 : n = 0
  · subst h0
    decide
  · unfold nat_repr
    rw [if_neg h0]
    rw [String.length_mk, List.length_map, List.length_reverse]
    rw [Nat.digits_len 10 n (by norm_num) h0]
    have := Nat.log_lt_of_lt_pow h0 (show n < 10 ^ 3 by omega)
    omega

theorem pad3_length {n : Nat} (hn : n < 1000) : (pad3 n).length = 3 := by
  unfold pad3
  rw [String.length_append, String.length_mk, List.length_replicate]
  have := nat_repr_length_le hn
  omega

theorem read_pad3 (n : Nat) : read_digits (pad3 n).data = n := by
  unfold pad3
  rw [String.data_append]
  have hd : (String.mk (List.replicate (3 - (nat_repr n).length) '0')).data =
      List.replicate (3 - (nat_repr n).length) '0' := rfl
  rw [hd, read_digits_replicate_zero, read_nat_repr]


/-- C8: the timestamp and duration of every entry are rendered by splitting
the nanosecond count into `value / 1000` whole microseconds and a zero-padded
three-digit `value % 1000` fraction; the fraction always occupies exactly
three digits, both printed numbers read back to the original div/mod parts,
and together they determine the nanosecond count exactly. -/
theorem timestamp_format_precision :
    ∀ ns : Nat,
      (slice_ts_repr ns).data =
        (nat_repr (ns / 1000)).data ++ '.' :: (pad3 (ns % 1000)).data ∧
      (pad3 (ns % 1000)).length = 3 ∧
      read_digits (pad3 (ns % 1000)).data = ns % 1000 ∧
      1000 * read_digits (nat_repr (ns / 1000)).data +
        read_digits (pad3 (ns % 1000)).data = ns := by
  intro ns
  refine ⟨?_, pad3_length (Nat.mod_lt _ (by norm_num)), read_pad3 _, ?_⟩
  · unfold slice_ts_repr
    rw [String.data_append, String.data_append]
    simp
  · rw [read_nat_repr, read_pad3]
    omega

/-!  C7: the epoch computation. -/

/-- Head of a timestamp list, or the sentinel for an empty one. -/
def head_or_max : List Nat → Nat
  | [] => time_point_max
  | t :: _ => t

theorem front_timestamp_eq_head_or_max {E : Type} (l : List (EventRecord E)) :
    front_timestamp l = head_or_max (l.map EventRecord.timestamp) := by
  cases l <;> rfl

theorem min_ts_mem : ∀ {l : List Nat} {m : Nat}, min_ts l = some m → m ∈ l := by
  intro l
  induction l with
  | nil => intro m h; cases h
  | cons t rest ih =>
    intro m h
    unfold min_ts at h
    cases hm : min_ts rest with
    | none =>
      rw [hm] at h
      simp only [Option.some_inj] at h
      exact h ▸ List.mem_cons_self _ _
    | some m' =>
      rw [hm] at h
      simp only [Option.some_inj] at h
      rcases min_choice t m' with hc | hc
      · rw [← h, hc]
        exact List.mem_cons_self _ _
      · rw [← h, hc]
        exact List.mem_cons_of_mem _ (ih hm)

theorem min_ts_cons_of_le {t : Nat} {rest : List Nat} (h : ∀ x ∈ rest, t ≤ x) :
    min_ts (t :: rest) = some t := by
  unfold min_ts
  cases hm : min_ts rest with
  | none => rfl
  | some m =>
    have : t ≤ m := h m (min_ts_mem hm)
    simp [Nat.min_eq_left this]

theorem sorted_head_min (l : List Nat) (hc : List.Chain' (· ≤ ·) l)
    (hb : ∀ x ∈ l, x < time_point_max) :
    ((l = [] ∧ min_ts l = none ∧ head_or_max l = time_point_max) ∨
     (min_ts l = some (head_or_max l) ∧ head_or_max l < time_point_max ∧
       head_or_max l ∈ l)) ∧
    (∀ x ∈ l, head_or_max l ≤ x) := by
  cases l with
  | nil =>
    refine ⟨Or.inl ⟨rfl, rfl, rfl⟩, ?_⟩
    intro x hx
    cases hx
  | cons t rest =>
    have hp : ∀ x ∈ rest, t ≤ x :=
      (List.pairwise_cons.mp (List.chain'_iff_pairwise.mp hc)).1
    refine ⟨Or.inr ⟨min_ts_cons_of_le hp, hb t (List.mem_cons_self _ _),
      List.mem_cons_self _ _⟩, ?_⟩
    intro x hx
    rcases List.mem_cons.mp hx with h | h
    · exact h ▸ Nat.le_refl _
    · exact hp x h

theorem min_opt_combine {oa ob : Option Nat} {x y : Nat} {la lb : List Nat}
    (ha : (oa = none ∧ x = time_point_max) ∨ (oa = some x ∧ x < time_point_max ∧ x ∈ la))
    (hb : (ob = none ∧ y = time_point_max) ∨ (ob = some y ∧ y < time_point_max ∧ y ∈ lb)) :
    (min_opt oa ob = none ∧ min x y = time_point_max) ∨
    (min_opt oa ob = some (min x y) ∧ min x y < time_point_max ∧
      min x y ∈ la ++ lb) := by
  rcases ha with ⟨ha1, ha2⟩ | ⟨ha1, ha2, ha3⟩ <;>
    rcases hb with ⟨hb1, hb2⟩ | ⟨hb1, hb2, hb3⟩ <;> subst ha1 <;> subst hb1
  · left
    subst ha2
    subst hb2
    simp [min_opt]
  · right
    have hxy : min x y = y := by omega
    rw [hxy]
    exact ⟨by simp [min_opt], hb2, List.mem_append_right _ hb3⟩
  · right
    have hxy : min x y = x := by omega
    rw [hxy]
    exact ⟨by simp [min_opt], ha2, List.mem_append_left _ ha3⟩
  · right
    refine ⟨by simp [min_opt], by omega, ?_⟩
    rcases min_choice x y with hc | hc
    · exact List.mem_append_left _ (by rw [hc]; exact ha3)
    · exact List.mem_append_right _ (by rw [hc]; exact hb3)

theorem min_opt_eq_none {a b : Option Nat} (h : min_opt a b = none) :
    a = none ∧ b = none := by
  cases a <;> cases b <;> simp [min_opt] at h ⊢

theorem min_ts_eq_none {l : List Nat} (h : min_ts l = none) : l = [] := by
  cases l with
  | nil => rfl
  | cons t rest =>
    unfold min_ts at h
    cases hm : min_ts rest <;> rw [hm] at h <;> cases h

/-- C7: the epoch computed at shutdown equals the minimum, over the non-empty
categories, of each category's earliest buffered timestamp (empty categories
contribute the sentinel `EventTimePoint::max()` and are thereby ignored);
consequently no entry has a negative relative timestamp, and some buffered
entry — the earliest — has relative timestamp exactly zero, every other
entry's relative timestamp being its absolute timestamp minus that minimum. -/
theorem epoch_minimum_correct :
    ∀ (u : List (EventRecord UnitEvent)) (i : List (EventRecord IncludeEvent))
      (p : List (EventRecord ParseEvent)) (q : List (EventRecord PassEvent)),
      chronological u → chronological i → chronological p → chronological q →
      (∀ r ∈ u, r.timestamp < time_point_max) →
      (∀ r ∈ i, r.timestamp < time_point_max) →
      (∀ r ∈ p, r.timestamp < time_point_max) →
      (∀ r ∈ q, r.timestamp < time_point_max) →
      (u ≠ [] ∨ i ≠ [] ∨ p ≠ [] ∨ q ≠ []) →
      epoch_spec u i p q = some (finish_epoch u i p q) ∧
      (∀ r ∈ u, 0 ≤ slice_rel_ts r.timestamp (finish_epoch u i p q)) ∧
      (∀ r ∈ i, 0 ≤ slice_rel_ts r.timestamp (finish_epoch u i p q)) ∧
      (∀ r ∈ p, 0 ≤ slice_rel_ts r.timestamp (finish_epoch u i p q)) ∧
      (∀ r ∈ q, 0 ≤ slice_rel_ts r.timestamp (finish_epoch u i p q)) ∧
      (∃ t, (t ∈ u.map EventRecord.timestamp ∨ t ∈ i.map EventRecord.timestamp ∨
             t ∈ p.map EventRecord.timestamp ∨ t ∈ q.map EventRecord.timestamp) ∧
        slice_rel_ts t (finish_epoch u i p q) = 0) := by
  intro u i p q hcu hci hcp hcq hbu hbi hbp hbq hne
  have bu : ∀ x ∈ u.map EventRecord.timestamp, x < time_point_max := by
    intro x hx
    rcases List.mem_map.mp hx with ⟨r, hr, rfl⟩
    exact hbu r hr
  have bi : ∀ x ∈ i.map EventRecord.timestamp, x < time_point_max := by
    intro x hx
    rcases List.mem_map.mp hx with ⟨r, hr, rfl⟩
    exact hbi r hr
  have bp : ∀ x ∈ p.map EventRecord.timestamp, x < time_point_max := by
    intro x hx
    rcases List.mem_map.mp hx with ⟨r, hr, rfl⟩
    exact hbp r hr
  have bq : ∀ x ∈ q.map EventRecord.timestamp, x < time_point_max := by
    intro x hx
    rcases List.mem_map.mp hx with ⟨r, hr, rfl⟩
    exact hbq r hr
  have shu := sorted_head_min (u.map EventRecord.timestamp)
    ((List.chain'_map _).mpr hcu) bu
  have shi := sorted_head_min (i.map EventRecord.timestamp)
    ((List.chain'_map _).mpr hci) bi
  have shp := sorted_head_min (p.map EventRecord.timestamp)
    ((List.chain'_map _).mpr hcp) bp
  have shq := sorted_head_min (q.map EventRecord.timestamp)
    ((List.chain'_map _).mpr hcq) bq
  have tou : ∀ {l : List Nat},
      ((l = [] ∧ min_ts l = none ∧ head_or_max l = time_point_max) ∨
       (min_ts l = some (head_or_max l) ∧ head_or_max l < time_point_max ∧
         head_or_max l ∈ l)) →
      ((min_ts l = none ∧ head_or_max l = time_point_max) ∨
       (min_ts l = some (head_or_max l) ∧ head_or_max l < time_point_max ∧
         head_or_max l ∈ l)) := by
    intro l h
    rcases h with ⟨_, h2, h3⟩ | h
    · exact Or.inl ⟨h2, h3⟩
    · exact Or.inr h
  have c12 := min_opt_combine (tou shu.1) (tou shi.1)
  have c34 := min_opt_combine (tou shp.1) (tou shq.1)
  have call := min_opt_combine c12 c34
  have hfe : finish_epoch u i p q =
      min (min (head_or_max (u.map EventRecord.timestamp))
        (head_or_max (i.map EventRecord.timestamp)))
        (min (head_or_max (p.map EventRecord.timestamp))
          (head_or_max (q.map EventRecord.timestamp))) := by
    simp [finish_epoch, front_timestamp_eq_head_or_max]
  rcases call with ⟨h1, h2⟩ | ⟨h1, h2, h3⟩
  · exfalso
    rcases min_opt_eq_none h1 with ⟨h11, h12⟩
    rcases min_opt_eq_none h11 with ⟨hu0, hi0⟩
    rcases min_opt_eq_none h12 with ⟨hp0, hq0⟩
    have hu' := List.map_eq_nil_iff.mp (min_ts_eq_none hu0)
    have hi' := List.map_eq_nil_iff.mp (min_ts_eq_none hi0)
    have hp' := List.map_eq_nil_iff.mp (min_ts_eq_none hp0)
    have hq' := List.map_eq_nil_iff.mp (min_ts_eq_none hq0)
    rcases hne with h | h | h | h <;> exact h (by assumption)
  · have hle : ∀ x, (x ∈ u.map EventRecord.timestamp ∨ x ∈ i.map EventRecord.timestamp ∨
        x ∈ p.map EventRecord.timestamp ∨ x ∈ q.map EventRecord.timestamp) →
        finish_epoch u i p q ≤ x := by
      intro x hx
      rw [hfe]
      rcases hx with hx | hx | hx | hx
      · exact le_trans (le_trans (min_le_left _ _) (min_le_left _ _)) (shu.2 x hx)
      · exact le_trans (le_trans (min_le_left _ _) (min_le_right _ _)) (shi.2 x hx)
      · exact le_trans (le_trans (min_le_right _ _) (min_le_left _ _)) (shp.2 x hx)
      · exact le_trans (le_trans (min_le_right _ _) (min_le_right _ _)) (shq.2 x hx)
    refine ⟨?_, ?_, ?_, ?_, ?_, ?_⟩
    · show min_opt (min_opt (category_earliest u) (category_earliest i))
        (min_opt (category_earliest p) (category_earliest q)) = _
      rw [hfe]
      exact h1
    · intro r hr
      have := hle r.timestamp (Or.inl (List.mem_map_of_mem _ hr))
      simp only [slice_rel_ts]
      omega
    · intro r hr
      have := hle r.timestamp (Or.inr (Or.inl (List.mem_map_of_mem _ hr)))
      simp only [slice_rel_ts]
      omega
    · intro r hr
      have := hle r.timestamp (Or.inr (Or.inr (Or.inl (List.mem_map_of_mem _ hr))))
      simp only [slice_rel_ts]
      omega
    · intro r hr
      have := hle r.timestamp (Or.inr (Or.inr (Or.inr (List.mem_map_of_mem _ hr))))
      simp only [slice_rel_ts]
      omega
    · refine ⟨finish_epoch u i p q, ?_, ?_⟩
      · rw [hfe]
        rcases List.mem_append.mp h3 with h | h
        · rcases List.mem_append.mp h with h' | h'
          · exact Or.inl h'
          · exact Or.inr (Or.inl h')
        · rcases List.mem_append.mp h with h' | h'
          · exact Or.inr (Or.inr (Or.inl h'))
          · exact Or.inr (Or.inr (Or.inr h'))
      · simp [slice_rel_ts]


/-- C7 witness: four buffers with earliest timestamps 5, (none), 3, 9 — the
epoch is 3 and the spec-side minimum agrees with the code's sentinel-based
computation. -/
theorem epoch_minimum_correct_witness :
    epoch_spec [⟨5, ⟨UnitEventKind.Start⟩⟩] ([] : List (EventRecord IncludeEvent))
      [⟨3, ⟨ParseEventKind.Start, 0, 0⟩⟩, ⟨7, ⟨ParseEventKind.Finish, 0, 0⟩⟩]
      [⟨9, ⟨PassEventKind.Start, "expand", none, 0⟩⟩] =
    some (finish_epoch [⟨5, ⟨UnitEventKind.Start⟩⟩] ([] : List (EventRecord IncludeEvent))
      [⟨3, ⟨ParseEventKind.Start, 0, 0⟩⟩, ⟨7, ⟨ParseEventKind.Finish, 0, 0⟩⟩]
      [⟨9, ⟨PassEventKind.Start, "expand", none, 0⟩⟩]) :=
  (epoch_minimum_correct [⟨5, ⟨UnitEventKind.Start⟩⟩] ([] : List (EventRecord IncludeEvent))
    [⟨3, ⟨ParseEventKind.Start, 0, 0⟩⟩, ⟨7, ⟨ParseEventKind.Finish, 0, 0⟩⟩]
    [⟨9, ⟨PassEventKind.Start, "expand", none, 0⟩⟩]
    (by simp [chronological]) (by simp [chronological])
    (by simp [chronological]) (by simp [chronological])
    (by decide) (by decide) (by decide) (by decide) (by decide)).1

/-!  C3: LIFO matching of well-formed sequences. -/

theorem run_stack_balanced :
    ∀ (s : List (EventRecord UnitEvent)) (stack : Stack UnitEvent),
      balanced stack.length (s.map (fun r => r.event.kind)) = true →
      (run_stack stack s).1 = [] ∧
      mismatch_count (run_stack stack s).2 = 0 ∧
      match_count (run_stack stack s).2 = end_count (s.map (fun r => r.event.kind)) := by
  intro s
  induction s with
  | nil =>
    intro stack h
    simp only [List.map_nil, balanced, decide_eq_true_eq] at h
    have hs : stack = [] := List.length_eq_zero.mp h
    subst hs
    exact ⟨rfl, rfl, rfl⟩
  | cons r rs ih =>
    intro stack h
    rw [List.map_cons] at h
    cases hk : r.event.kind
    · rw [hk] at h
      simp only [balanced] at h
      have h' : balanced (r :: stack).length (rs.map (fun x => x.event.kind)) = true := by
        simpa using h
      have hrec := ih (r :: stack) h'
      simp only [run_stack, hk]
      refine ⟨hrec.1, hrec.2.1, ?_⟩
      rw [hrec.2.2]
      simp [end_count, hk, List.countP_cons]
    · rw [hk] at h
      simp only [balanced, Bool.and_eq_true, decide_eq_true_eq] at h
      obtain ⟨hpos, hbal⟩ := h
      cases stack with
      | nil => simp at hpos
      | cons x xs =>
        have h' : balanced xs.length (rs.map (fun y => y.event.kind)) = true := by
          simpa using hbal
        have hrec := ih xs h'
        simp only [run_stack, hk, try_match_stack, default_match_callback,
          List.cons_append, List.nil_append]
        have hmm : is_mismatch (TraceOut.on_match x r) = false := rfl
        refine ⟨hrec.1, ?_, ?_⟩
        · have hm := hrec.2.1
          simp only [mismatch_count, List.countP_cons] at *
          simp [hmm, hm]
        · have hm2 := hrec.2.2
          simp only [match_count, end_count, List.map_cons, hk, List.countP_cons] at *
          simp [hmm, hm2]

theorem run_stack_ts :
    ∀ (s : List (EventRecord UnitEvent)) (stack : Stack UnitEvent),
      (∀ x ∈ stack, ∀ r' ∈ s, x.timestamp ≤ r'.timestamp) →
      List.Pairwise (fun a b => a.timestamp ≤ b.timestamp) s →
      ∀ a b, TraceOut.on_match a b ∈ (run_stack stack s).2 → a.timestamp ≤ b.timestamp := by
  intro s
  induction s with
  | nil =>
    intro stack hcross hpw a b hmem
    simp [run_stack] at hmem
  | cons r rs ih =>
    intro stack hcross hpw a b hmem
    rcases List.pairwise_cons.mp hpw with ⟨hr, hpw'⟩
    cases hk : r.event.kind
    · simp only [run_stack, hk] at hmem
      refine ih (r :: stack) ?_ hpw' a b hmem
      intro x hx r' hr'
      rcases List.mem_cons.mp hx with h | h
      · exact h ▸ hr r' hr'
      · exact hcross x h r' (List.mem_cons_of_mem _ hr')
    · cases stack with
      | nil =>
        simp only [run_stack, hk, try_match_stack, default_match_callback,
          List.cons_append, List.nil_append] at hmem
        rcases List.mem_cons.mp hmem with h | h
        · cases h
        · refine ih [] ?_ hpw' a b h
          intro x hx
          cases hx
      | cons x xs =>
        simp only [run_stack, hk, try_match_stack, default_match_callback,
          List.cons_append, List.nil_append] at hmem
        rcases List.mem_cons.mp hmem with h | h
        · injection h with h1 h2
          subst h1
          subst h2
          exact hcross a (List.mem_cons_self _ _) b (List.mem_cons_self _ _)
        · refine ih xs ?_ hpw' a b h
          intro y hy r' hr'
          exact hcross y (List.mem_cons_of_mem _ hy) r' (List.mem_cons_of_mem _ hr')

/-- C3: for every well-formed (balanced) begin/end sequence fed through the
shared LIFO matching primitive the tracker leaves no pending entry (so the
flush emits zero mismatches), reports no mismatch while running, emits exactly
one matched interval per begin/end pair, and — when timestamps are submitted
in order — every interval has start ≤ end; and the ends pair with the most
recent unmatched begins: Start, Start, End, End for one Pass name yields
exactly two intervals, the first End matched with the second Start and the
second End matched with the first Start. -/
theorem lifo_matching_correct :
    (∀ s : List (EventRecord UnitEvent),
      balanced 0 (s.map (fun r => r.event.kind)) = true →
      (run_stack [] s).1 = [] ∧
      finish_stack (run_stack [] s).1 = [] ∧
      mismatch_count (run_stack [] s).2 = 0 ∧
      match_count (run_stack [] s).2 = end_count (s.map (fun r => r.event.kind)) ∧
      (List.Pairwise (fun a b => a.timestamp ≤ b.timestamp) s →
        ∀ a b, TraceOut.on_match a b ∈ (run_stack [] s).2 → a.timestamp ≤ b.timestamp)) ∧
    (∀ (name : String) (t0 t1 t2 t3 : Nat) (d : Option Nat) (uid : Nat),
      (run_pass TrackerState.init
        [⟨t0, ⟨PassEventKind.Start, name, d, uid⟩⟩, ⟨t1, ⟨PassEventKind.Start, name, d, uid⟩⟩,
         ⟨t2, ⟨PassEventKind.End, name, d, uid⟩⟩, ⟨t3, ⟨PassEventKind.End, name, d, uid⟩⟩]).2 =
        [TraceOut.on_match ⟨t1, ⟨PassEventKind.Start, name, d, uid⟩⟩
            ⟨t2, ⟨PassEventKind.End, name, d, uid⟩⟩,
         TraceOut.on_match ⟨t0, ⟨PassEventKind.Start, name, d, uid⟩⟩
            ⟨t3, ⟨PassEventKind.End, name, d, uid⟩⟩] ∧
      (run_pass TrackerState.init
        [⟨t0, ⟨PassEventKind.Start, name, d, uid⟩⟩, ⟨t1, ⟨PassEventKind.Start, name, d, uid⟩⟩,
         ⟨t2, ⟨PassEventKind.End, name, d, uid⟩⟩,
         ⟨t3, ⟨PassEventKind.End, name, d, uid⟩⟩]).1 = TrackerState.init) := by
  constructor
  · intro s hbal
    have h1 := run_stack_balanced s [] hbal
    refine ⟨h1.1, ?_, h1.2.1, h1.2.2, ?_⟩
    · rw [h1.1]
      rfl
    · intro hpw a b hmem
      refine run_stack_ts s [] ?_ hpw a b hmem
      intro x hx
      cases hx
  · intro name t0 t1 t2 t3 d uid
    constructor <;>
      simp [run_pass, push_event_pass, try_match_map, try_match_stack, map_push, map_find,
        map_set, map_erase, default_match_callback, TrackerState.init]

/-- C3 witness: the balanced sequence Start, Start, End, End at timestamps
0, 1, 2, 3 through the LIFO primitive: no pending entry remains, no mismatch
is reported, and two intervals — one per pair — are emitted. -/
theorem lifo_matching_correct_witness :
    (run_stack [] [⟨0, ⟨UnitEventKind.Start⟩⟩, ⟨1, ⟨UnitEventKind.Start⟩⟩,
      ⟨2, ⟨UnitEventKind.End⟩⟩, ⟨3, ⟨UnitEventKind.End⟩⟩]).1 = [] ∧
    mismatch_count (run_stack [] [⟨0, ⟨UnitEventKind.Start⟩⟩, ⟨1, ⟨UnitEventKind.Start⟩⟩,
      ⟨2, ⟨UnitEventKind.End⟩⟩, ⟨3, ⟨UnitEventKind.End⟩⟩]).2 = 0 ∧
    match_count (run_stack [] [⟨0, ⟨UnitEventKind.Start⟩⟩, ⟨1, ⟨UnitEventKind.Start⟩⟩,
      ⟨2, ⟨UnitEventKind.End⟩⟩, ⟨3, ⟨UnitEventKind.End⟩⟩]).2 =
      end_count ([⟨0, ⟨UnitEventKind.Start⟩⟩, ⟨1, ⟨UnitEventKind.Start⟩⟩,
        ⟨2, ⟨UnitEventKind.End⟩⟩,
        (⟨3, ⟨UnitEventKind.End⟩⟩ : EventRecord UnitEvent)].map (fun r => r.event.kind)) :=
  have h := lifo_matching_correct.1 [⟨0, ⟨UnitEventKind.Start⟩⟩, ⟨1, ⟨UnitEventKind.Start⟩⟩,
    ⟨2, ⟨UnitEventKind.End⟩⟩, ⟨3, ⟨UnitEventKind.End⟩⟩] (by decide)
  ⟨h.1, h.2.2.1, h.2.2.2.1⟩

end TimeTrace
